import Mathlib

/-!
Verification of the data-preparation pipeline of `ml_real_state.py`.

The script's own logic (random train/test split, crc32 hash-based split,
`CombinedAttributesAdder`) is embedded directly from the source.  Components
whose behaviour is implemented by third-party libraries (sklearn's
`SimpleImputer`, `StandardScaler`, `StratifiedShuffleSplit`, pandas' `cut`)
are modelled from the spec; their doc comments say so explicitly.

Tables are lists of rows (or lists of columns where a component is
column-oriented).  Python/numpy float64 values are modelled as exact
rationals extended with the IEEE-754 special values `inf`, `-inf`, `nan`
produced by division by zero.
-/

/-- Result type of a float64 division: either a finite (exact rational)
value or one of the IEEE-754 special values produced by dividing by zero. -/
inductive ExtQ where
  | finite (q : ℚ)
  | inf
  | neginf
  | nan
deriving DecidableEq, Repr

/-- IEEE-754 division of two finite float64 values (exact-rational model):
`a / 0` is `+inf` for `a > 0`, `-inf` for `a < 0`, `NaN` for `0 / 0`;
otherwise the exact quotient. -/
def fdiv (a b : ℚ) : ExtQ :=
  if b = 0 then
    if a = 0 then ExtQ.nan else if 0 < a then ExtQ.inf else ExtQ.neginf
  else ExtQ.finite (a / b)

/-! ### zlib crc32 of an `np.int64`, as used by `test_set_check` -/

/-- One bit step of the reflected CRC-32 (polynomial 0xEDB88320). -/
def crc32_step (crc : ℕ) : ℕ :=
  if crc % 2 = 1 then Nat.xor (crc / 2) 0xEDB88320 else crc / 2

/-- Fold one byte into the running CRC-32 state: xor it in, then run
eight bit steps. -/
def crc32_byte (crc b : ℕ) : ℕ :=
  crc32_step^[8] (Nat.xor crc b)

/-- zlib `crc32` of a byte sequence: initial state `0xFFFFFFFF`, one
`crc32_byte` per byte, final complement. -/
def crc32 (bs : List ℕ) : ℕ :=
  Nat.xor (bs.foldl crc32_byte 0xFFFFFFFF) 0xFFFFFFFF

/-- The eight little-endian bytes of an integer reduced to 64 bits
(two's complement), i.e. the buffer `np.int64(i)` exposes to `crc32`. -/
def int64_le_bytes (i : ℤ) : List ℕ :=
  let u := (i % (2 ^ 64 : ℤ)).toNat
  [u % 2 ^ 8, u / 2 ^ 8 % 2 ^ 8, u / 2 ^ 16 % 2 ^ 8, u / 2 ^ 24 % 2 ^ 8,
   u / 2 ^ 32 % 2 ^ 8, u / 2 ^ 40 % 2 ^ 8, u / 2 ^ 48 % 2 ^ 8, u / 2 ^ 56 % 2 ^ 8]

/-- `crc32(np.int64(identifier))` from the script. -/
def crc32_int64 (identifier : ℤ) : ℕ :=
  crc32 (int64_le_bytes identifier)

/-- `test_set_check(identifier, test_ratio)`:
`crc32(np.int64(identifier)) & 0xffffffff < test_ratio * 2 ** 32`. -/
def test_set_check (identifier : ℤ) (test_ratio : ℚ) : Bool :=
  decide ((Nat.land (crc32_int64 identifier) 0xffffffff : ℚ) < test_ratio * 2 ^ 32)

/-! ### The two hand-written split strategies -/

/-- `test_set_size = int(len(data) * test_ratio)` inside `split_train_test`
(Python `int()` truncates; for a non-negative ratio this is the floor). -/
def test_set_size (n : ℕ) (test_ratio : ℚ) : ℕ :=
  ((n : ℚ) * test_ratio).floor.toNat

/-- `split_train_test(data, test_ratio)`: given the drawn permutation
`shuffled_indices` of `np.random.permutation(len(data))`, the first
`test_set_size` positions of the permutation select the test rows and the
remaining positions the train rows; returns `(train, test)` with rows
gathered by `data.iloc`. -/
def split_train_test (data : List α) (shuffled_indices : List ℕ) (test_ratio : ℚ) :
    List α × List α :=
  let k := test_set_size data.length test_ratio
  let test_indices := shuffled_indices.take k
  let train_indices := shuffled_indices.drop k
  (train_indices.filterMap (fun i => data[i]?), test_indices.filterMap (fun i => data[i]?))

/-- `split_train_test_by_id(data, test_ratio, id_column)`: a row goes to the
test set iff `test_set_check` holds of its id-column value; the train set is
the rows where it does not, both in source order (`data.loc`). -/
def split_train_test_by_id (data : List ρ) (test_ratio : ℚ) (id_of : ρ → ℤ) :
    List ρ × List ρ :=
  let in_test_set := fun r => test_set_check (id_of r) test_ratio
  (data.filter (fun r => ! in_test_set r), data.filter in_test_set)

/-! ### Income category buckets (`pd.cut`) -/

/-- Modelled from the spec: pandas `cut` (not in the repository) bins a
numeric value into labeled ranges.  The bin edges and labels are the ones
passed at the call site: `bins=[0., 1.5, 3.0, 4.5, 6., np.inf]`,
`labels=[1, 2, 3, 4, 5]`.  Each interval is `(lower, upper]` (pandas
default `right=True`); `none` as upper bound stands for `np.inf`. -/
def income_intervals : List (ℚ × Option ℚ) :=
  [(0, some (3 / 2)), (3 / 2, some 3), (3, some (9 / 2)), (9 / 2, some 6), (6, none)]

/-- The labels `[1, 2, 3, 4, 5]` passed to `pd.cut`. -/
def income_labels : List ℕ := [1, 2, 3, 4, 5]

/-- Membership of a value in one `(lower, upper]` bin (upper `none` = `np.inf`). -/
def in_income_interval (x : ℚ) (b : ℚ × Option ℚ) : Bool :=
  decide (b.1 < x) &&
    (match b.2 with
     | some u => decide (x ≤ u)
     | none => true)

/-- Modelled from the spec: the labels of every bucket of the `income_cat`
binning that contains `x`.  `pd.cut` assigns the unique matching label, or
`NaN` (here: the empty list) when no bin contains the value. -/
def income_cat (x : ℚ) : List ℕ :=
  ((income_intervals.zip income_labels).filter (fun p => in_income_interval x p.1)).map
    (fun p => p.2)

/-! ### Median imputation (`SimpleImputer(strategy="median")`) -/

/-- Modelled from the spec: the numpy median of a list of rationals, as
learned by sklearn's `SimpleImputer` (not in the repository): sort, take the
middle element (odd length) or the mean of the two middle elements (even
length). -/
def qmedian (l : List ℚ) : ℚ :=
  let s := l.insertionSort (· ≤ ·)
  if l.length % 2 = 1 then s.getD (l.length / 2) 0
  else (s.getD (l.length / 2 - 1) 0 + s.getD (l.length / 2) 0) / 2

/-- Modelled from the spec: sklearn's `SimpleImputer(strategy="median")`
(not in the repository).  `statistics` holds the per-column medians learned
at fit time. -/
structure SimpleImputer where
  statistics : List ℚ

/-- `imputer.fit(table)`: learn the median of the non-missing values of
each column.  A table is a list of columns; a missing value (`NaN`) is
`none`. -/
def SimpleImputer.fit (cols : List (List (Option ℚ))) : SimpleImputer :=
  ⟨cols.map (fun c => qmedian (c.filterMap id))⟩

/-- `imputer.transform(table)`: per column, replace each missing value with
the median learned at fit time; non-missing values pass through. -/
def SimpleImputer.transform (imp : SimpleImputer) (cols : List (List (Option ℚ))) :
    List (List ℚ) :=
  List.zipWith (fun m c => c.map (fun v => v.getD m)) imp.statistics cols

/-! ### Standardization (`StandardScaler`) -/

/-- Modelled from the spec: the mean learned by sklearn's `StandardScaler`
(not in the repository). -/
def qmean (l : List ℚ) : ℚ := l.sum / l.length

/-- Modelled from the spec: the population variance (square of the learned
standard deviation) of `StandardScaler` (not in the repository). -/
def qvariance (l : List ℚ) : ℚ := ((l.map (fun x => (x - qmean l) ^ 2)).sum) / l.length

/-- Modelled from the spec: `StandardScaler.transform` (not in the
repository) outputs `(value - mean) / std` with the fit-time mean and
standard deviation, in float64 arithmetic (so `std = 0` divides by zero). -/
def scaler_transform (mean std v : ℚ) : ExtQ := fdiv (v - mean) std

/-! ### Stratified sampling (`StratifiedShuffleSplit`) -/

/-- Modelled from the spec: sklearn's `StratifiedShuffleSplit` (not in the
repository) samples each stratum independently at the test ratio, flooring
the per-stratum test count.  Input: the row count of each stratum; output:
the number of test rows drawn from each stratum. -/
def stratified_test_counts (counts : List ℕ) (test_ratio : ℚ) : List ℕ :=
  counts.map (fun (c : ℕ) => ((c : ℚ) * test_ratio).floor.toNat)

/-! ### Feature engineering -/

/-- `housing["rooms_per_household"] = housing["total_rooms"] / housing["households"]`:
elementwise float64 division of two numeric columns. -/
def rooms_per_household (total_rooms households : List ℚ) : List ExtQ :=
  List.zipWith fdiv total_rooms households

/-- `rooms_ix, bedroom_ix, population_ix, households_ix = 3, 4, 5, 6`. -/
def rooms_ix : ℕ := 3

/-- Second of the fixed column positions. -/
def bedroom_ix : ℕ := 4

/-- Third of the fixed column positions. -/
def population_ix : ℕ := 5

/-- Fourth of the fixed column positions. -/
def households_ix : ℕ := 6

/-- `CombinedAttributesAdder(add_bedrooms_per_room=True)`: the only state is
the constructor flag. -/
structure CombinedAttributesAdder where
  add_bedrooms_per_room : Bool := true

/-- `fit(X, y=None)` returns `self` — nothing else to do. -/
def CombinedAttributesAdder.fit (self : CombinedAttributesAdder) (X : List (List ℚ)) :
    CombinedAttributesAdder :=
  self

/-- `transform(X)`: per row, `np.c_` appends `rooms_per_household` and
`population_per_household` (and `bedrooms_per_room` when the flag is set)
to the existing columns; a matrix is a list of rows of float64 values. -/
def CombinedAttributesAdder.transform (self : CombinedAttributesAdder)
    (X : List (List ℚ)) : List (List ExtQ) :=
  X.map (fun r =>
    let rooms_per_household := fdiv (r.getD rooms_ix 0) (r.getD households_ix 0)
    let population_per_household := fdiv (r.getD population_ix 0) (r.getD households_ix 0)
    if self.add_bedrooms_per_room then
      r.map ExtQ.finite ++
        [rooms_per_household, population_per_household,
         fdiv (r.getD bedroom_ix 0) (r.getD rooms_ix 0)]
    else
      r.map ExtQ.finite ++ [rooms_per_household, population_per_household])

/-! ### Helper lemmas -/

/-- Gathering every position of a list in order returns the list itself. -/
theorem filterMap_getElem?_range {α : Type _} (l : List α) :
    (List.range l.length).filterMap (fun i => l[i]?) = l := by
  induction l with
  | nil => rfl
  | cons a l ih =>
    rw [List.length_cons, List.range_succ_eq_map, List.filterMap_cons]
    simp only [List.getElem?_cons_zero, List.filterMap_map]
    have hcomp : ((fun i => (a :: l)[i]?) ∘ Nat.succ) = fun i => l[i]? := by
      funext i; simp
    rw [hcomp, ih]

/-- Gathering rows at positions that are all in range loses no position. -/
theorem filterMap_getElem?_length {α : Type _} (data : List α) :
    ∀ (idxs : List ℕ), (∀ i ∈ idxs, i < data.length) →
      (idxs.filterMap (fun i => data[i]?)).length = idxs.length := by
  intro idxs
  induction idxs with
  | nil => intro _; rfl
  | cons i idxs ih =>
    intro h
    have hi : i < data.length := h i (by simp)
    rw [List.filterMap_cons, List.getElem?_eq_getElem hi]
    simp only [List.length_cons]
    rw [ih (fun x hx => h x (by simp [hx]))]

/-- Gathering rows at in-range positions: the `j`-th gathered row is the row
at the `j`-th position. -/
theorem filterMap_getElem?_get {α : Type _} (data : List α) :
    ∀ (idxs : List ℕ), (∀ i ∈ idxs, i < data.length) →
      ∀ (j idx : ℕ), idxs[j]? = some idx →
        (idxs.filterMap (fun i => data[i]?))[j]? = data[idx]? := by
  intro idxs
  induction idxs with
  | nil => intro _ j idx hj; simp at hj
  | cons i idxs ih =>
    intro h j idx hj
    have hi : i < data.length := h i (by simp)
    rcases j with _ | j
    · simp only [List.getElem?_cons_zero, Option.some.injEq] at hj
      subst hj
      rw [List.filterMap_cons, List.getElem?_eq_getElem hi]
      simp [List.getElem?_eq_getElem hi]
    · simp only [List.getElem?_cons_succ] at hj
      rw [List.filterMap_cons, List.getElem?_eq_getElem hi]
      simp only [List.getElem?_cons_succ]
      exact ih (fun x hx => h x (by simp [hx])) j idx hj

/-! ### C1: both split strategies partition the table -/

/-- C1 (amended): for every table whose rows are pairwise distinct, both the
random split (run on a permutation of the row indices) and the hash-based
split return train/test parts that partition the source rows exactly — their
concatenation is a permutation of the source and they share no row.  Order
of rows within each output is preserved from the source for the hash-based
split (both parts are sublists of the source); the random split emits rows
in permutation order. -/
theorem c1_splits_partition {α : Type} (data : List α) (shuffled_indices : List ℕ)
    (test_ratio : ℚ) (id_of : α → ℤ)
    (hperm : shuffled_indices.Perm (List.range data.length)) (hnd : data.Nodup) :
    (((split_train_test data shuffled_indices test_ratio).1 ++
        (split_train_test data shuffled_indices test_ratio).2).Perm data
      ∧ (split_train_test data shuffled_indices test_ratio).1.Disjoint
          (split_train_test data shuffled_indices test_ratio).2)
    ∧ (((split_train_test_by_id data test_ratio id_of).1 ++
          (split_train_test_by_id data test_ratio id_of).2).Perm data
      ∧ (split_train_test_by_id data test_ratio id_of).1.Disjoint
          (split_train_test_by_id data test_ratio id_of).2
      ∧ (split_train_test_by_id data test_ratio id_of).1.Sublist data
      ∧ (split_train_test_by_id data test_ratio id_of).2.Sublist data) := by
  have hsplit : split_train_test data shuffled_indices test_ratio =
      ((shuffled_indices.drop (test_set_size data.length test_ratio)).filterMap
          (fun i => data[i]?),
        (shuffled_indices.take (test_set_size data.length test_ratio)).filterMap
          (fun i => data[i]?)) := rfl
  have hdt : (shuffled_indices.drop (test_set_size data.length test_ratio) ++
      shuffled_indices.take (test_set_size data.length test_ratio)).Perm
      (List.range data.length) := by
    have h := @List.perm_append_comm _
      (shuffled_indices.drop (test_set_size data.length test_ratio))
      (shuffled_indices.take (test_set_size data.length test_ratio))
    rw [List.take_append_drop] at h
    exact h.trans hperm
  have hrand : ((split_train_test data shuffled_indices test_ratio).1 ++
      (split_train_test data shuffled_indices test_ratio).2).Perm data := by
    rw [hsplit]
    have h := (hdt.filterMap (fun i => data[i]?))
    rw [filterMap_getElem?_range] at h
    simpa [List.filterMap_append] using h
  have hrandd : (split_train_test data shuffled_indices test_ratio).1.Disjoint
      (split_train_test data shuffled_indices test_ratio).2 :=
    (List.nodup_append.mp ((hrand.nodup_iff).mpr hnd)).2.2
  have hhash : split_train_test_by_id data test_ratio id_of =
      (data.filter (fun r => ! test_set_check (id_of r) test_ratio),
        data.filter (fun r => test_set_check (id_of r) test_ratio)) := rfl
  refine ⟨⟨hrand, hrandd⟩, ?_, ?_, ?_, ?_⟩
  · rw [hhash]
    exact List.perm_append_comm.trans
      (List.filter_append_perm (fun r => test_set_check (id_of r) test_ratio) data)
  · rw [hhash]
    intro a ha hb
    rw [List.mem_filter] at ha hb
    rw [Bool.not_eq_true'] at ha
    exact absurd hb.2 (by simp [ha.2])
  · rw [hhash]; exact List.filter_sublist data
  · rw [hhash]; exact List.filter_sublist data

set_option maxRecDepth 20000 in
/-- C1 witness: the amended statement instantiated on the three-row table
`[10, 20, 30]`, the permutation `[0, 2, 1]` and ratio `1/3`. -/
theorem c1_splits_partition_witness :
    (([0, 2, 1] : List ℕ).Perm (List.range ([10, 20, 30] : List ℕ).length)
      ∧ ([10, 20, 30] : List ℕ).Nodup)
    ∧ ((((split_train_test ([10, 20, 30] : List ℕ) [0, 2, 1] (1 / 3)).1 ++
          (split_train_test ([10, 20, 30] : List ℕ) [0, 2, 1] (1 / 3)).2).Perm [10, 20, 30]
        ∧ (split_train_test ([10, 20, 30] : List ℕ) [0, 2, 1] (1 / 3)).1.Disjoint
            (split_train_test ([10, 20, 30] : List ℕ) [0, 2, 1] (1 / 3)).2)
      ∧ (((split_train_test_by_id ([10, 20, 30] : List ℕ) (1 / 3) (fun n => (n : ℤ))).1 ++
            (split_train_test_by_id ([10, 20, 30] : List ℕ) (1 / 3) (fun n => (n : ℤ))).2).Perm
            [10, 20, 30]
        ∧ (split_train_test_by_id ([10, 20, 30] : List ℕ) (1 / 3) (fun n => (n : ℤ))).1.Disjoint
            (split_train_test_by_id ([10, 20, 30] : List ℕ) (1 / 3) (fun n => (n : ℤ))).2
        ∧ (split_train_test_by_id ([10, 20, 30] : List ℕ) (1 / 3)
            (fun n => (n : ℤ))).1.Sublist [10, 20, 30]
        ∧ (split_train_test_by_id ([10, 20, 30] : List ℕ) (1 / 3)
            (fun n => (n : ℤ))).2.Sublist [10, 20, 30])) :=
  ⟨⟨by decide, by decide⟩,
    c1_splits_partition ([10, 20, 30] : List ℕ) [0, 2, 1] (1 / 3) (fun n => (n : ℤ))
      (by decide) (by decide)⟩

set_option maxRecDepth 20000 in
/-- C1 counterexample: as stated, the claim also asserts that the order of
rows within each output is preserved from the source for the random split;
but on table `[10, 20, 30]` with permutation `[0, 2, 1]` and ratio `1/3`
the train part is `[30, 20]`, which is not a sublist of the source. -/
theorem c1_random_split_order_counterexample :
    (split_train_test ([10, 20, 30] : List ℕ) [0, 2, 1] (1 / 3)).1 = [30, 20]
    ∧ ¬ (split_train_test ([10, 20, 30] : List ℕ) [0, 2, 1] (1 / 3)).1.Sublist
        [10, 20, 30] := by
  have hk : test_set_size (List.length ([10, 20, 30] : List ℕ)) (1 / 3) = 1 := by
    have h3 : ((List.length ([10, 20, 30] : List ℕ) : ℚ)) * (1 / 3) = 1 := by norm_num
    unfold test_set_size
    rw [h3]
    decide
  constructor
  · simp only [split_train_test, hk]
    decide
  · simp only [split_train_test, hk]
    decide

/-! ### C6: random split takes the first `floor(N * ratio)` permuted rows -/

/-- Bridge between the executable `Rat.floor` used in `test_set_size` and
the `Int.floor` of the `FloorRing` instance on `ℚ`. -/
theorem rat_floor_eq_intFloor (q : ℚ) : q.floor = ⌊q⌋ := rfl

/-- C6: for a table of `N` rows, a permutation of its row indices and a
ratio in `[0, 1]`, the test set has exactly `test_set_size N ratio` rows and
the train set the remaining `N - test_set_size N ratio`; the size is the
floored (truncated) value of `N * ratio`; and the `j`-th test row is the
source row at the `j`-th index of the permutation, for every `j` below the
test size. -/
theorem c6_random_split_sizes {α : Type} (data : List α) (shuffled_indices : List ℕ)
    (test_ratio : ℚ)
    (hperm : shuffled_indices.Perm (List.range data.length))
    (h0 : 0 ≤ test_ratio) (h1 : test_ratio ≤ 1) :
    (split_train_test data shuffled_indices test_ratio).2.length
        = test_set_size data.length test_ratio
    ∧ (split_train_test data shuffled_indices test_ratio).1.length
        = data.length - test_set_size data.length test_ratio
    ∧ ((test_set_size data.length test_ratio : ℚ) ≤ (data.length : ℚ) * test_ratio
        ∧ (data.length : ℚ) * test_ratio - 1 < (test_set_size data.length test_ratio : ℚ))
    ∧ ∀ j idx, shuffled_indices[j]? = some idx →
        j < test_set_size data.length test_ratio →
        (split_train_test data shuffled_indices test_ratio).2[j]? = data[idx]? := by
  have hsplit : split_train_test data shuffled_indices test_ratio =
      ((shuffled_indices.drop (test_set_size data.length test_ratio)).filterMap
          (fun i => data[i]?),
        (shuffled_indices.take (test_set_size data.length test_ratio)).filterMap
          (fun i => data[i]?)) := rfl
  have hmem : ∀ i ∈ shuffled_indices, i < data.length := fun i hi =>
    List.mem_range.mp (hperm.mem_iff.mp hi)
  have hlen : shuffled_indices.length = data.length :=
    hperm.length_eq.trans (List.length_range _)
  have hknn : (0 : ℚ) ≤ (data.length : ℚ) * test_ratio :=
    mul_nonneg (by positivity) h0
  have hf0 : (0 : ℤ) ≤ ⌊(data.length : ℚ) * test_ratio⌋ := Int.floor_nonneg.mpr hknn
  have hkq : ((test_set_size data.length test_ratio : ℕ) : ℚ)
      = ((⌊(data.length : ℚ) * test_ratio⌋ : ℤ) : ℚ) := by
    unfold test_set_size
    rw [rat_floor_eq_intFloor]
    exact_mod_cast congrArg (fun z : ℤ => (z : ℚ)) (Int.toNat_of_nonneg hf0)
  have hkN : test_set_size data.length test_ratio ≤ data.length := by
    have hle : (data.length : ℚ) * test_ratio ≤ (data.length : ℚ) :=
      mul_le_of_le_one_right (by positivity) h1
    have h2 : ⌊(data.length : ℚ) * test_ratio⌋ ≤ ⌊((data.length : ℕ) : ℚ)⌋ :=
      Int.floor_mono hle
    rw [Int.floor_natCast] at h2
    unfold test_set_size
    rw [rat_floor_eq_intFloor]
    calc ⌊(data.length : ℚ) * test_ratio⌋.toNat
        ≤ ((data.length : ℕ) : ℤ).toNat := Int.toNat_le_toNat h2
      _ = data.length := Int.toNat_natCast _
  refine ⟨?_, ?_, ⟨?_, ?_⟩, ?_⟩
  · rw [hsplit]
    rw [filterMap_getElem?_length data _
      (fun i hi => hmem i (List.take_subset _ _ hi))]
    rw [List.length_take, hlen]
    exact min_eq_left hkN
  · rw [hsplit]
    rw [filterMap_getElem?_length data _
      (fun i hi => hmem i (List.drop_subset _ _ hi))]
    rw [List.length_drop, hlen]
  · rw [hkq]; exact Int.floor_le _
  · rw [hkq]; exact Int.sub_one_lt_floor _
  · intro j idx hj hjk
    rw [hsplit]
    have htake : (shuffled_indices.take (test_set_size data.length test_ratio))[j]?
        = some idx := by
      rw [List.getElem?_take_of_lt hjk]
      exact hj
    exact filterMap_getElem?_get data _
      (fun i hi => hmem i (List.take_subset _ _ hi)) j idx htake

set_option maxRecDepth 20000 in
/-- C6 witness: the statement instantiated on the three-row table
`[10, 20, 30]`, the permutation `[2, 0, 1]` and ratio `1/2` (so the floored
test size is `1`). -/
theorem c6_random_split_sizes_witness :
    (([2, 0, 1] : List ℕ).Perm (List.range ([10, 20, 30] : List ℕ).length)
      ∧ (0 : ℚ) ≤ 1 / 2 ∧ (1 / 2 : ℚ) ≤ 1)
    ∧ ((split_train_test ([10, 20, 30] : List ℕ) [2, 0, 1] (1 / 2)).2.length
        = test_set_size ([10, 20, 30] : List ℕ).length (1 / 2)
      ∧ (split_train_test ([10, 20, 30] : List ℕ) [2, 0, 1] (1 / 2)).1.length
        = ([10, 20, 30] : List ℕ).length
            - test_set_size ([10, 20, 30] : List ℕ).length (1 / 2)
      ∧ ((test_set_size ([10, 20, 30] : List ℕ).length (1 / 2) : ℚ)
            ≤ (([10, 20, 30] : List ℕ).length : ℚ) * (1 / 2)
        ∧ (([10, 20, 30] : List ℕ).length : ℚ) * (1 / 2) - 1
            < (test_set_size ([10, 20, 30] : List ℕ).length (1 / 2) : ℚ))
      ∧ ∀ j idx, ([2, 0, 1] : List ℕ)[j]? = some idx →
          j < test_set_size ([10, 20, 30] : List ℕ).length (1 / 2) →
          (split_train_test ([10, 20, 30] : List ℕ) [2, 0, 1] (1 / 2)).2[j]?
            = ([10, 20, 30] : List ℕ)[idx]?) :=
  ⟨⟨by decide, by norm_num, by norm_num⟩,
    c6_random_split_sizes ([10, 20, 30] : List ℕ) [2, 0, 1] (1 / 2)
      (by decide) (by norm_num) (by norm_num)⟩

/-! ### C2 and C3: the hash-based split -/

/-- One CRC bit step keeps the state below `2^32`. -/
theorem crc32_step_lt {c : ℕ} (h : c < 2 ^ 32) : crc32_step c < 2 ^ 32 := by
  unfold crc32_step
  split
  · exact Nat.xor_lt_two_pow (lt_of_le_of_lt (Nat.div_le_self c 2) h) (by norm_num)
  · exact lt_of_le_of_lt (Nat.div_le_self c 2) h

/-- Iterated CRC bit steps keep the state below `2^32`. -/
theorem crc32_iterate_lt (n : ℕ) : ∀ {c : ℕ}, c < 2 ^ 32 → crc32_step^[n] c < 2 ^ 32 := by
  induction n with
  | zero => intro c h; simpa using h
  | succ n ih =>
    intro c h
    rw [Function.iterate_succ_apply]
    exact ih (crc32_step_lt h)

/-- Folding a byte below `2^32` into a CRC state below `2^32` stays below `2^32`. -/
theorem crc32_byte_lt {c b : ℕ} (hc : c < 2 ^ 32) (hb : b < 2 ^ 32) :
    crc32_byte c b < 2 ^ 32 := by
  unfold crc32_byte
  exact crc32_iterate_lt 8 (Nat.xor_lt_two_pow hc hb)

/-- The CRC fold over any byte list with entries below `2^32` stays below `2^32`. -/
theorem crc32_foldl_lt :
    ∀ (bs : List ℕ), ∀ {c : ℕ}, c < 2 ^ 32 → (∀ b ∈ bs, b < 2 ^ 32) →
      bs.foldl crc32_byte c < 2 ^ 32 := by
  intro bs
  induction bs with
  | nil => intro c hc _; simpa using hc
  | cons b bs ih =>
    intro c hc hb
    rw [List.foldl_cons]
    exact ih (crc32_byte_lt hc (hb b (by simp))) (fun x hx => hb x (by simp [hx]))

/-- The checksum is a 32-bit value: `crc32` of any byte list is below `2^32`. -/
theorem crc32_lt (bs : List ℕ) (hbs : ∀ b ∈ bs, b < 2 ^ 32) : crc32 bs < 2 ^ 32 := by
  unfold crc32
  exact Nat.xor_lt_two_pow (crc32_foldl_lt bs (by norm_num) hbs) (by norm_num)

/-- The bytes of an `np.int64` buffer are below `2^32`. -/
theorem int64_le_bytes_lt (i : ℤ) : ∀ b ∈ int64_le_bytes i, b < 2 ^ 32 := by
  intro b hb
  unfold int64_le_bytes at hb
  simp only [List.mem_cons, List.not_mem_nil, or_false] at hb
  rcases hb with h | h | h | h | h | h | h | h <;> subst h <;> omega

/-- The checksum of an identifier is a 32-bit value. -/
theorem crc32_int64_lt (i : ℤ) : crc32_int64 i < 2 ^ 32 :=
  crc32_lt _ (int64_le_bytes_lt i)

/-- C2: a row is in the test set of the hash-based split iff it is a source
row whose identifier's 32-bit checksum is strictly below `ratio * 2^32`; the
train set holds exactly the remaining source rows; the checksum is below
`2^32`, so the `& 0xffffffff` mask leaves it unchanged. -/
theorem c2_hash_split_membership {ρ : Type} (data : List ρ) (test_ratio : ℚ)
    (id_of : ρ → ℤ) (r : ρ) :
    (r ∈ (split_train_test_by_id data test_ratio id_of).2 ↔
      r ∈ data ∧
        ((Nat.land (crc32_int64 (id_of r)) 0xffffffff : ℚ) < test_ratio * 2 ^ 32))
    ∧ (r ∈ (split_train_test_by_id data test_ratio id_of).1 ↔
      r ∈ data ∧
        ¬ ((Nat.land (crc32_int64 (id_of r)) 0xffffffff : ℚ) < test_ratio * 2 ^ 32))
    ∧ crc32_int64 (id_of r) < 2 ^ 32
    ∧ Nat.land (crc32_int64 (id_of r)) 0xffffffff = crc32_int64 (id_of r) := by
  have hsplit : split_train_test_by_id data test_ratio id_of =
      (data.filter (fun x => ! test_set_check (id_of x) test_ratio),
        data.filter (fun x => test_set_check (id_of x) test_ratio)) := rfl
  have hmask : Nat.land (crc32_int64 (id_of r)) 0xffffffff = crc32_int64 (id_of r) := by
    have h1 : Nat.land (crc32_int64 (id_of r)) 0xffffffff
        = crc32_int64 (id_of r) % 2 ^ 32 := by
      have h2 : (0xffffffff : ℕ) = 2 ^ 32 - 1 := by norm_num
      rw [h2]
      exact Nat.and_pow_two_sub_one_eq_mod (crc32_int64 (id_of r)) 32
    rw [h1]
    exact Nat.mod_eq_of_lt (crc32_int64_lt (id_of r))
  refine ⟨?_, ?_, crc32_int64_lt (id_of r), hmask⟩
  · rw [hsplit]
    simp [List.mem_filter, test_set_check]
  · rw [hsplit]
    simp [List.mem_filter, test_set_check]

/-- C3: hash-based split membership depends only on the identifier value,
not on row position or table contents: two rows of two arbitrary tables with
equal identifiers land on the same side of the split in both runs. -/
theorem c3_hash_split_stable {ρ σ : Type} (d₁ : List ρ) (d₂ : List σ)
    (test_ratio : ℚ) (id₁ : ρ → ℤ) (id₂ : σ → ℤ) (r₁ : ρ) (r₂ : σ)
    (h₁ : r₁ ∈ d₁) (h₂ : r₂ ∈ d₂) (hid : id₁ r₁ = id₂ r₂) :
    (r₁ ∈ (split_train_test_by_id d₁ test_ratio id₁).2 ↔
      r₂ ∈ (split_train_test_by_id d₂ test_ratio id₂).2)
    ∧ (r₁ ∈ (split_train_test_by_id d₁ test_ratio id₁).1 ↔
      r₂ ∈ (split_train_test_by_id d₂ test_ratio id₂).1) := by
  have hs₁ : split_train_test_by_id d₁ test_ratio id₁ =
      (d₁.filter (fun x => ! test_set_check (id₁ x) test_ratio),
        d₁.filter (fun x => test_set_check (id₁ x) test_ratio)) := rfl
  have hs₂ : split_train_test_by_id d₂ test_ratio id₂ =
      (d₂.filter (fun x => ! test_set_check (id₂ x) test_ratio),
        d₂.filter (fun x => test_set_check (id₂ x) test_ratio)) := rfl
  rw [hs₁, hs₂]
  constructor
  · simp only [List.mem_filter, hid]
    simp [h₁, h₂]
  · simp only [List.mem_filter, hid]
    simp [h₁, h₂]

/-- C3 witness: identifier `5` appears in the one-row table `[5]` and in the
reordered, extended table `[3, 5]`; the theorem applies with ratio `1/5`. -/
theorem c3_hash_split_stable_witness :
    ((5 : ℤ) ∈ ([5] : List ℤ) ∧ (5 : ℤ) ∈ ([3, 5] : List ℤ))
    ∧ (((5 : ℤ) ∈ (split_train_test_by_id ([5] : List ℤ) (1 / 5) (fun i => i)).2 ↔
        (5 : ℤ) ∈ (split_train_test_by_id ([3, 5] : List ℤ) (1 / 5) (fun i => i)).2)
      ∧ ((5 : ℤ) ∈ (split_train_test_by_id ([5] : List ℤ) (1 / 5) (fun i => i)).1 ↔
        (5 : ℤ) ∈ (split_train_test_by_id ([3, 5] : List ℤ) (1 / 5) (fun i => i)).1)) :=
  ⟨⟨by decide, by decide⟩,
    c3_hash_split_stable ([5] : List ℤ) ([3, 5] : List ℤ) (1 / 5)
      (fun i => i) (fun i => i) 5 5 (by decide) (by decide) rfl⟩

/-! ### C4: median imputation re-uses the fit-time median -/

/-- C4: after fitting on a table, transforming any table replaces, in each
column, every missing value by the median learned from the corresponding
fit-time column — not a freshly computed one — and passes non-missing
values through unchanged. -/
theorem c4_imputer_uses_fit_median (fitCols trCols : List (List (Option ℚ)))
    (j : ℕ) (cf ct : List (Option ℚ))
    (hf : fitCols[j]? = some cf) (ht : trCols[j]? = some ct) :
    ((SimpleImputer.fit fitCols).transform trCols)[j]?
      = some (ct.map (fun v => v.getD (qmedian (cf.filterMap id))))
    ∧ (∀ (i : ℕ) (v : ℚ), ct[i]? = some (some v) →
        (ct.map (fun v => v.getD (qmedian (cf.filterMap id))))[i]? = some v)
    ∧ (∀ (i : ℕ), ct[i]? = some none →
        (ct.map (fun v => v.getD (qmedian (cf.filterMap id))))[i]?
          = some (qmedian (cf.filterMap id))) := by
  refine ⟨?_, ?_, ?_⟩
  · have h1 : (fitCols.map (fun c => qmedian (c.filterMap id)))[j]?
        = some (qmedian (cf.filterMap id)) := by
      rw [List.getElem?_map, hf]
      rfl
    show (List.zipWith (fun m c => c.map (fun v => v.getD m))
        (fitCols.map (fun c => qmedian (c.filterMap id))) trCols)[j]? = _
    rw [List.getElem?_zipWith, h1, ht]
  · intro i v hi
    rw [List.getElem?_map, hi]
    rfl
  · intro i hi
    rw [List.getElem?_map, hi]
    rfl

/-- C4 witness: fitting on the single column `[1, NaN, 3]` learns median
`2`; transforming the fit column yields `[1, 2, 3]` and transforming the new
column `[NaN, 5]` with the same fitted imputer yields `[2, 5]`. -/
theorem c4_imputer_uses_fit_median_witness :
    (([[some 1, none, some 3]] : List (List (Option ℚ)))[0]?
        = some [some 1, none, some 3]
      ∧ ([[none, some 5]] : List (List (Option ℚ)))[0]? = some [none, some 5])
    ∧ (SimpleImputer.fit [[some 1, none, some 3]]).statistics = [2]
    ∧ (SimpleImputer.fit [[some 1, none, some 3]]).transform [[some 1, none, some 3]]
        = [[1, 2, 3]]
    ∧ (SimpleImputer.fit [[some 1, none, some 3]]).transform [[none, some 5]]
        = [[2, 5]]
    ∧ (((SimpleImputer.fit [[some 1, none, some 3]]).transform [[none, some 5]])[0]?
        = some (([none, some 5] : List (Option ℚ)).map
            (fun v => v.getD (qmedian (([some 1, none, some 3] :
              List (Option ℚ)).filterMap id))))
      ∧ (∀ (i : ℕ) (v : ℚ), ([none, some 5] : List (Option ℚ))[i]? = some (some v) →
          (([none, some 5] : List (Option ℚ)).map
            (fun v => v.getD (qmedian (([some 1, none, some 3] :
              List (Option ℚ)).filterMap id))))[i]? = some v)
      ∧ (∀ (i : ℕ), ([none, some 5] : List (Option ℚ))[i]? = some none →
          (([none, some 5] : List (Option ℚ)).map
            (fun v => v.getD (qmedian (([some 1, none, some 3] :
              List (Option ℚ)).filterMap id))))[i]?
            = some (qmedian (([some 1, none, some 3] :
              List (Option ℚ)).filterMap id)))) :=
  ⟨⟨rfl, rfl⟩,
    by simp [SimpleImputer.fit, qmedian, List.insertionSort, List.orderedInsert]; norm_num,
    by
      simp [SimpleImputer.fit, SimpleImputer.transform, qmedian, List.insertionSort,
        List.orderedInsert]
      norm_num,
    by
      simp [SimpleImputer.fit, SimpleImputer.transform, qmedian, List.insertionSort,
        List.orderedInsert]
      norm_num,
    c4_imputer_uses_fit_median [[some 1, none, some 3]] [[none, some 5]] 0
      [some 1, none, some 3] [none, some 5] rfl rfl⟩

/-! ### C5: feature ratios and IEEE-754 division by zero -/

/-- C5: each feature-engineering derivation is the elementwise float64
ratio of two numeric columns; a zero denominator yields IEEE-754 `inf`
(positive numerator), `-inf` (negative numerator) or `NaN` (`0/0`) rather
than raising an exception, and the resulting value is placed in the output
column unguarded. -/
theorem c5_feature_ratio (total_rooms households : List ℚ) (i : ℕ) (a b : ℚ)
    (ha : total_rooms[i]? = some a) (hb : households[i]? = some b) :
    (rooms_per_household total_rooms households)[i]? = some (fdiv a b)
    ∧ (b = 0 → 0 < a → fdiv a b = ExtQ.inf)
    ∧ (b = 0 → a < 0 → fdiv a b = ExtQ.neginf)
    ∧ (b = 0 → a = 0 → fdiv a b = ExtQ.nan)
    ∧ (b ≠ 0 → fdiv a b = ExtQ.finite (a / b)) := by
  refine ⟨?_, ?_, ?_, ?_, ?_⟩
  · unfold rooms_per_household
    rw [List.getElem?_zipWith, ha, hb]
  · intro hb0 ha0
    simp [fdiv, hb0, ha0, ha0.ne.symm]
  · intro hb0 ha0
    simp [fdiv, hb0, ha0.ne, not_lt.mpr ha0.le]
  · intro hb0 ha0
    simp [fdiv, hb0, ha0]
  · intro hb0
    simp [fdiv, hb0]

/-- C5 witness: the columns `total_rooms = [4, 0, 3]` and
`households = [0, 0, 2]`; at row 0 the ratio is `4 / 0 = inf`. -/
theorem c5_feature_ratio_witness :
    (([4, 0, 3] : List ℚ)[0]? = some 4 ∧ ([0, 0, 2] : List ℚ)[0]? = some 0)
    ∧ ((rooms_per_household [4, 0, 3] [0, 0, 2])[0]? = some (fdiv 4 0)
      ∧ ((0 : ℚ) = 0 → (0 : ℚ) < 4 → fdiv 4 0 = ExtQ.inf)
      ∧ ((0 : ℚ) = 0 → (4 : ℚ) < 0 → fdiv 4 0 = ExtQ.neginf)
      ∧ ((0 : ℚ) = 0 → (4 : ℚ) = 0 → fdiv 4 0 = ExtQ.nan)
      ∧ ((0 : ℚ) ≠ 0 → fdiv 4 0 = ExtQ.finite (4 / 0))) :=
  ⟨⟨rfl, rfl⟩, c5_feature_ratio [4, 0, 3] [0, 0, 2] 0 4 0 rfl rfl⟩

/-! ### C7: the income buckets do not cover values at or below zero -/

/-- C7 (amended): the `income_cat` buckets are non-overlapping and cover
exactly the strictly positive reals up to the `np.inf` top edge: every value
`x > 0` falls in exactly one bucket, while every value `x ≤ 0` falls in no
bucket (`pd.cut` yields `NaN` there) — the binning does not cover the full
numeric range at the bottom end. -/
theorem c7_income_cat_buckets (x : ℚ) :
    (0 < x → (income_cat x).length = 1) ∧ (x ≤ 0 → income_cat x = []) := by
  constructor
  · intro hx
    rcases le_or_lt x (3 / 2) with h1 | h1
    · have e2 : ¬ ((3 : ℚ) / 2 < x) := not_lt.mpr h1
      have e3 : ¬ ((3 : ℚ) < x) := not_lt.mpr (h1.trans (by norm_num))
      have e4 : ¬ ((9 : ℚ) / 2 < x) := not_lt.mpr (h1.trans (by norm_num))
      have e5 : ¬ ((6 : ℚ) < x) := not_lt.mpr (h1.trans (by norm_num))
      simp [income_cat, income_intervals, income_labels, in_income_interval,
        hx, h1, e2, e3, e4, e5]
    · rcases le_or_lt x 3 with h2 | h2
      · have e3 : ¬ ((3 : ℚ) < x) := not_lt.mpr h2
        have e4 : ¬ ((9 : ℚ) / 2 < x) := not_lt.mpr (h2.trans (by norm_num))
        have e5 : ¬ ((6 : ℚ) < x) := not_lt.mpr (h2.trans (by norm_num))
        have e1 : ¬ (x ≤ 3 / 2) := not_le.mpr h1
        simp [income_cat, income_intervals, income_labels, in_income_interval,
          hx, h1, h2, e1, e3, e4, e5]
      · rcases le_or_lt x (9 / 2) with h3 | h3
        · have e4 : ¬ ((9 : ℚ) / 2 < x) := not_lt.mpr h3
          have e5 : ¬ ((6 : ℚ) < x) := not_lt.mpr (h3.trans (by norm_num))
          have e1 : ¬ (x ≤ 3 / 2) := not_le.mpr (lt_trans (by norm_num) h2)
          have e2 : ¬ (x ≤ 3) := not_le.mpr h2
          simp [income_cat, income_intervals, income_labels, in_income_interval,
            hx, h2, h3, e1, e2, e4, e5]
        · rcases le_or_lt x 6 with h4 | h4
          · have e5 : ¬ ((6 : ℚ) < x) := not_lt.mpr h4
            have e1 : ¬ (x ≤ 3 / 2) := not_le.mpr (lt_trans (by norm_num) h3)
            have e2 : ¬ (x ≤ 3) := not_le.mpr (lt_trans (by norm_num) h3)
            have e3 : ¬ (x ≤ 9 / 2) := not_le.mpr h3
            simp [income_cat, income_intervals, income_labels, in_income_interval,
              hx, h3, h4, e1, e2, e3, e5]
          · have e1 : ¬ (x ≤ 3 / 2) := not_le.mpr (lt_trans (by norm_num) h4)
            have e2 : ¬ (x ≤ 3) := not_le.mpr (lt_trans (by norm_num) h4)
            have e3 : ¬ (x ≤ 9 / 2) := not_le.mpr (lt_trans (by norm_num) h4)
            have e4 : ¬ (x ≤ 6) := not_le.mpr h4
            simp [income_cat, income_intervals, income_labels, in_income_interval,
              hx, h4, e1, e2, e3, e4]
  · intro hx
    have e1 : ¬ ((0 : ℚ) < x) := not_lt.mpr hx
    have e2 : ¬ ((3 : ℚ) / 2 < x) := not_lt.mpr (hx.trans (by norm_num))
    have e3 : ¬ ((3 : ℚ) < x) := not_lt.mpr (hx.trans (by norm_num))
    have e4 : ¬ ((9 : ℚ) / 2 < x) := not_lt.mpr (hx.trans (by norm_num))
    have e5 : ¬ ((6 : ℚ) < x) := not_lt.mpr (hx.trans (by norm_num))
    simp [income_cat, income_intervals, income_labels, in_income_interval,
      e1, e2, e3, e4, e5]

/-- C7 witness: the value `2` lies in exactly one bucket. -/
theorem c7_income_cat_buckets_witness :
    (0 : ℚ) < 2 ∧ (income_cat 2).length = 1 :=
  ⟨by norm_num, (c7_income_cat_buckets 2).1 (by norm_num)⟩

/-- C7 counterexample: the claim asserts every numeric value of any sign is
assigned exactly one bucket label, but the bins start at `0`, so the value
`-1` (and any value at or below zero) receives no bucket at all. -/
theorem c7_income_cat_counterexample :
    income_cat (-1) = [] ∧ ¬ (income_cat (-1)).length = 1 := by
  have e1 : ¬ ((0 : ℚ) < -1) := by norm_num
  have e2 : ¬ ((3 : ℚ) / 2 < -1) := by norm_num
  have e3 : ¬ ((3 : ℚ) < -1) := by norm_num
  have e4 : ¬ ((9 : ℚ) / 2 < -1) := by norm_num
  have e5 : ¬ ((6 : ℚ) < -1) := by norm_num
  have h : income_cat (-1) = [] := by
    simp [income_cat, income_intervals, income_labels, in_income_interval,
      e1, e2, e3, e4, e5]
  exact ⟨h, by rw [h]; decide⟩

/-! ### C8: the standard scaler -/

/-- C8: for a scaler fitted on a column with mean `μ` and standard deviation
`σ` (characterised by `σ ≥ 0`, `σ² = variance`), transform outputs
`(v - μ) / σ` for every value; transforming `μ` yields `0` and `μ + σ`
yields `1` when `σ ≠ 0`, and when the fit-time standard deviation is zero
the transform of the mean produces `NaN` (the float64 `0/0`). -/
theorem c8_scaler_round_trip (col : List ℚ) (mean std : ℚ)
    (hmean : mean = qmean col) (hstd : 0 ≤ std ∧ std ^ 2 = qvariance col) :
    (std ≠ 0 →
      scaler_transform mean std mean = ExtQ.finite 0
      ∧ scaler_transform mean std (mean + std) = ExtQ.finite 1
      ∧ ∀ v : ℚ, scaler_transform mean std v = ExtQ.finite ((v - mean) / std))
    ∧ (std = 0 → scaler_transform mean std mean = ExtQ.nan) := by
  constructor
  · intro h
    refine ⟨?_, ?_, ?_⟩
    · simp [scaler_transform, fdiv, h]
    · have hv : mean + std - mean = std := by ring
      simp [scaler_transform, fdiv, h, hv, div_self h]
    · intro v
      simp [scaler_transform, fdiv, h]
  · intro h
    simp [scaler_transform, fdiv, h]

/-- C8 witness: the column `[0, 2]` has mean `1` and standard deviation `1`
(variance `1`); the scaler sends `1` to `0` and `1 + 1 = 2` to `1`. -/
theorem c8_scaler_round_trip_witness :
    ((1 : ℚ) = qmean [0, 2] ∧ (0 : ℚ) ≤ 1 ∧ (1 : ℚ) ^ 2 = qvariance [0, 2])
    ∧ (((1 : ℚ) ≠ 0 →
        scaler_transform 1 1 1 = ExtQ.finite 0
        ∧ scaler_transform 1 1 (1 + 1) = ExtQ.finite 1
        ∧ ∀ v : ℚ, scaler_transform 1 1 v = ExtQ.finite ((v - 1) / 1))
      ∧ ((1 : ℚ) = 0 → scaler_transform 1 1 1 = ExtQ.nan)) :=
  ⟨⟨by norm_num [qmean], by norm_num, by norm_num [qvariance, qmean]⟩,
    c8_scaler_round_trip [0, 2] 1 1 (by norm_num [qmean])
      ⟨by norm_num, by norm_num [qvariance, qmean]⟩⟩

/-! ### C9: stratified sampling proportions -/

/-- C9: each stratum is sampled independently at the same test ratio: the
test count drawn from a stratum of size `c` is within the unit interval
below `c * ratio` (the floored value), so per-stratum test proportions track
the source proportions up to flooring. -/
theorem c9_stratified_counts (counts : List ℕ) (test_ratio : ℚ) (j c : ℕ)
    (h0 : 0 ≤ test_ratio) (hc : counts[j]? = some c) :
    ∃ t : ℕ, (stratified_test_counts counts test_ratio)[j]? = some t
      ∧ (t : ℚ) ≤ (c : ℚ) * test_ratio
      ∧ (c : ℚ) * test_ratio - 1 < (t : ℚ) := by
  have hnn : (0 : ℚ) ≤ (c : ℚ) * test_ratio := mul_nonneg (by positivity) h0
  have hf0 : (0 : ℤ) ≤ ⌊(c : ℚ) * test_ratio⌋ := Int.floor_nonneg.mpr hnn
  have hcast : (((((c : ℚ) * test_ratio).floor).toNat : ℕ) : ℚ)
      = ((⌊(c : ℚ) * test_ratio⌋ : ℤ) : ℚ) := by
    rw [rat_floor_eq_intFloor]
    exact_mod_cast congrArg (fun z : ℤ => (z : ℚ)) (Int.toNat_of_nonneg hf0)
  refine ⟨((c : ℚ) * test_ratio).floor.toNat, ?_, ?_, ?_⟩
  · unfold stratified_test_counts
    rw [List.getElem?_map, hc]
    rfl
  · rw [hcast]
    exact Int.floor_le _
  · rw [hcast]
    exact Int.sub_one_lt_floor _

/-- C9 witness: on strata counts `{A: 80, B: 20}` with ratio `1/5` the model
draws test counts `{A: 16, B: 4}` (exactly the spec's example, the floored
values), and the theorem's bounds hold at stratum `A`. -/
theorem c9_stratified_counts_witness :
    stratified_test_counts [80, 20] (1 / 5) = [16, 4]
    ∧ ((0 : ℚ) ≤ 1 / 5 ∧ ([80, 20] : List ℕ)[0]? = some 80)
    ∧ (∃ t : ℕ, (stratified_test_counts [80, 20] (1 / 5))[0]? = some t
        ∧ (t : ℚ) ≤ ((80 : ℕ) : ℚ) * (1 / 5)
        ∧ ((80 : ℕ) : ℚ) * (1 / 5) - 1 < (t : ℚ)) :=
  ⟨by
    have h80 : (((80 : ℕ) : ℚ)) * (1 / 5) = ((16 : ℕ) : ℚ) := by norm_num
    have h20 : (((20 : ℕ) : ℚ)) * (1 / 5) = ((4 : ℕ) : ℚ) := by norm_num
    unfold stratified_test_counts
    simp only [List.map_cons, List.map_nil, h80, h20, rat_floor_eq_intFloor,
      Int.floor_natCast, Int.toNat_natCast],
    ⟨by norm_num, rfl⟩,
    c9_stratified_counts [80, 20] (1 / 5) 0 80 (by norm_num) rfl⟩

/-! ### C10: the combined-attributes transformer -/

/-- C10: on any matrix, `transform` leaves each row's existing columns
unchanged as a prefix and appends the ratios taken at the fixed column
positions 3, 4, 5, 6 — `rooms/households` and `population/households`, plus
`bedrooms/rooms` when the flag is set — so the output width is the input
width plus 3 (flag set) or plus 2; `fit` returns the object unchanged and
has no effect on `transform`. -/
theorem c10_combined_attributes_adder (self : CombinedAttributesAdder)
    (X Y : List (List ℚ)) (i : ℕ) (r : List ℚ)
    (hr : X[i]? = some r) (h7 : 7 ≤ r.length) :
    self.fit Y = self
    ∧ (self.fit Y).transform X = self.transform X
    ∧ ∃ ro : List ExtQ, (self.transform X)[i]? = some ro
        ∧ ro.take r.length = r.map ExtQ.finite
        ∧ ro.drop r.length =
            (if self.add_bedrooms_per_room then
              [fdiv (r.getD rooms_ix 0) (r.getD households_ix 0),
               fdiv (r.getD population_ix 0) (r.getD households_ix 0),
               fdiv (r.getD bedroom_ix 0) (r.getD rooms_ix 0)]
            else
              [fdiv (r.getD rooms_ix 0) (r.getD households_ix 0),
               fdiv (r.getD population_ix 0) (r.getD households_ix 0)])
        ∧ ro.length = r.length + (if self.add_bedrooms_per_room then 3 else 2) := by
  refine ⟨rfl, rfl, ?_⟩
  cases hb : self.add_bedrooms_per_room
  · refine ⟨r.map ExtQ.finite ++
        [fdiv (r.getD rooms_ix 0) (r.getD households_ix 0),
         fdiv (r.getD population_ix 0) (r.getD households_ix 0)], ?_, ?_, ?_, ?_⟩
    · show (X.map _)[i]? = _
      rw [List.getElem?_map, hr]
      simp [hb]
    · exact List.take_left' (List.length_map r ExtQ.finite)
    · rw [List.drop_left' (List.length_map r ExtQ.finite)]
      simp [hb]
    · simp [hb]
  · refine ⟨r.map ExtQ.finite ++
        [fdiv (r.getD rooms_ix 0) (r.getD households_ix 0),
         fdiv (r.getD population_ix 0) (r.getD households_ix 0),
         fdiv (r.getD bedroom_ix 0) (r.getD rooms_ix 0)], ?_, ?_, ?_, ?_⟩
    · show (X.map _)[i]? = _
      rw [List.getElem?_map, hr]
      simp [hb]
    · exact List.take_left' (List.length_map r ExtQ.finite)
    · rw [List.drop_left' (List.length_map r ExtQ.finite)]
      simp [hb]
    · simp [hb]

/-- C10 witness: the flag-set transformer on the one-row matrix
`[[0, 1, 2, 3, 4, 5, 6]]` (seven columns). -/
theorem c10_combined_attributes_adder_witness :
    (([[0, 1, 2, 3, 4, 5, 6]] : List (List ℚ))[0]? = some [0, 1, 2, 3, 4, 5, 6]
      ∧ 7 ≤ ([0, 1, 2, 3, 4, 5, 6] : List ℚ).length)
    ∧ (CombinedAttributesAdder.mk true).fit [] = CombinedAttributesAdder.mk true
    ∧ ((CombinedAttributesAdder.mk true).fit []).transform [[0, 1, 2, 3, 4, 5, 6]]
        = (CombinedAttributesAdder.mk true).transform [[0, 1, 2, 3, 4, 5, 6]]
    ∧ ∃ ro : List ExtQ,
        ((CombinedAttributesAdder.mk true).transform [[0, 1, 2, 3, 4, 5, 6]])[0]? = some ro
        ∧ ro.take ([0, 1, 2, 3, 4, 5, 6] : List ℚ).length
            = ([0, 1, 2, 3, 4, 5, 6] : List ℚ).map ExtQ.finite
        ∧ ro.drop ([0, 1, 2, 3, 4, 5, 6] : List ℚ).length =
            (if (CombinedAttributesAdder.mk true).add_bedrooms_per_room then
              [fdiv (([0, 1, 2, 3, 4, 5, 6] : List ℚ).getD rooms_ix 0)
                 (([0, 1, 2, 3, 4, 5, 6] : List ℚ).getD households_ix 0),
               fdiv (([0, 1, 2, 3, 4, 5, 6] : List ℚ).getD population_ix 0)
                 (([0, 1, 2, 3, 4, 5, 6] : List ℚ).getD households_ix 0),
               fdiv (([0, 1, 2, 3, 4, 5, 6] : List ℚ).getD bedroom_ix 0)
                 (([0, 1, 2, 3, 4, 5, 6] : List ℚ).getD rooms_ix 0)]
            else
              [fdiv (([0, 1, 2, 3, 4, 5, 6] : List ℚ).getD rooms_ix 0)
                 (([0, 1, 2, 3, 4, 5, 6] : List ℚ).getD households_ix 0),
               fdiv (([0, 1, 2, 3, 4, 5, 6] : List ℚ).getD population_ix 0)
                 (([0, 1, 2, 3, 4, 5, 6] : List ℚ).getD households_ix 0)])
        ∧ ro.length = ([0, 1, 2, 3, 4, 5, 6] : List ℚ).length
            + (if (CombinedAttributesAdder.mk true).add_bedrooms_per_room then 3 else 2) :=
  ⟨⟨rfl, by norm_num⟩,
    c10_combined_attributes_adder (CombinedAttributesAdder.mk true)
      [[0, 1, 2, 3, 4, 5, 6]] [] 0 [0, 1, 2, 3, 4, 5, 6] rfl (by norm_num)⟩
